import Mathlib

/-!
Verification development for the "Design System Copilot" repository: a Figma
plugin (src/plugin/code.ts) paired with a chat web UI (src/app/page.tsx,
src/components/message.tsx) and a chat endpoint (src/app/api/chat/route.ts).

The development shallowly embeds the data model and the operations of the
source files in Lean:

* `Json` models JavaScript values produced by `JSON.parse` (JSON values);
  `parseJson` models `JSON.parse` itself (returning `none` where the
  JavaScript builtin would throw a `SyntaxError`);
* the Stream Chunk Parser of `src/components/message.tsx` is embedded with
  explicit JavaScript exception propagation (`Except JsErr`) and explicit
  `try`/`catch` combinators, so that "never throws" is a theorem rather than
  a typing accident;
* the chat endpoint `POST` handler of `src/app/api/chat/route.ts` is embedded
  as the guard of lines 101-108, the chat-history construction of lines
  204-220, and the action-branch stream processing of lines 248-307;
* the plugin command executor of `src/plugin/code.ts` is embedded over a
  concrete document model (nodes, variable collections, variables), and the
  `EXECUTE_AUTOMATOR` message handler over an arbitrary action executor.

Numeric JSON literals are modelled as a mantissa/exponent pair of integers
(the value is m * 10 ^ e); Figma color components (floats in [0,1]) and other
host numbers are modelled as rationals.
-/

/-- JavaScript values as produced by `JSON.parse`: null, booleans, numbers
(mantissa `m` and decimal exponent `e`, value `m * 10 ^ e`), strings, arrays
and objects (field lists in source order; duplicate keys are resolved
last-wins by `objGet`, as in JavaScript). -/
inductive Json where
  | null : Json
  | bool (b : Bool) : Json
  | num (m : Int) (e : Int) : Json
  | str (s : String) : Json
  | arr (elems : List Json) : Json
  | obj (fields : List (String × Json)) : Json

/-- The opening brace character, written via its code point. -/
def lbrace : Char := Char.ofNat 123

/-- The closing brace character, written via its code point. -/
def rbrace : Char := Char.ofNat 125

/-- Object field lookup with JavaScript `JSON.parse` duplicate-key semantics:
the last occurrence of the key wins (later assignments overwrite earlier
ones while the object literal is built). -/
def objGet (fields : List (String × Json)) (k : String) : Option Json :=
  match fields with
  | [] => none
  | (k', v) :: rest =>
    match objGet rest k with
    | some r => some r
    | none => if k' = k then some v else none

/-- JavaScript truthiness of a parsed JSON value: `null`, `false`, `0` and
`""` are falsy; every other JSON value (including every array and object) is
truthy. -/
def truthy : Json → Bool
  | .null => false
  | .bool b => b
  | .num m _ => m != 0
  | .str s => s != ""
  | .arr _ => true
  | .obj _ => true

/-- Truthiness of a possibly-`undefined` JavaScript value (`none` models
`undefined`, which is falsy). -/
def truthyOpt : Option Json → Bool
  | none => false
  | some v => truthy v

/-- JSON whitespace characters (RFC 8259: space, tab, line feed, carriage
return), as accepted between tokens by `JSON.parse`. -/
def isJsonWs (c : Char) : Bool :=
  c = ' ' || c = '\t' || c = '\n' || c = '\r'

/-- Drop leading JSON whitespace. -/
def skipWs : List Char → List Char
  | [] => []
  | c :: rest => if isJsonWs c then skipWs rest else c :: rest

/-- Decimal digit test. -/
def isDigitCh (c : Char) : Bool := '0' ≤ c && c ≤ '9'

/-- Hexadecimal digit value of a character, if it is one (digits, then the
lowercase and uppercase letter ranges, by code point). -/
def hexVal (c : Char) : Option Nat :=
  let n := c.toNat
  if 48 ≤ n ∧ n ≤ 57 then some (n - 48)
  else if 97 ≤ n ∧ n ≤ 102 then some (n - 87)
  else if 65 ≤ n ∧ n ≤ 70 then some (n - 55)
  else none

/-- Parse exactly four hexadecimal digits (the `\uXXXX` escape payload). -/
def parseHex4 : List Char → Option (Nat × List Char)
  | c1 :: c2 :: c3 :: c4 :: rest =>
    match hexVal c1, hexVal c2, hexVal c3, hexVal c4 with
    | some a, some b, some c, some d => some (((a * 16 + b) * 16 + c) * 16 + d, rest)
    | _, _, _, _ => none
  | _ => none

/-- Turn a code point into a `Char`; code points that are not valid Lean
characters (lone surrogates, which JavaScript strings can hold) degrade to
`Char.ofNat`'s default. -/
def codePointChar (n : Nat) : Char := Char.ofNat n

/-- Decode the `\uXXXX` escape(s) at the front of the input: a high surrogate
followed by a second `\u` low surrogate is combined into one code point, as
`JSON.parse` does. Returns the decoded characters and the remainder. -/
def decodeUnicodeEsc (n : Nat) (rest : List Char) : List Char × List Char :=
  if 0xd800 ≤ n ∧ n ≤ 0xdbff then
    match rest with
    | '\\' :: 'u' :: c1 :: c2 :: c3 :: c4 :: rest2 =>
      match hexVal c1, hexVal c2, hexVal c3, hexVal c4 with
      | some a, some b, some c, some d =>
        let n2 := ((a * 16 + b) * 16 + c) * 16 + d
        if 0xdc00 ≤ n2 ∧ n2 ≤ 0xdfff then
          ([codePointChar (0x10000 + (n - 0xd800) * 0x400 + (n2 - 0xdc00))], rest2)
        else ([codePointChar n, codePointChar n2], rest2)
      | _, _, _, _ => ([codePointChar n], rest)
    | _ => ([codePointChar n], rest)
  else ([codePointChar n], rest)

/-- Parse the body of a JSON string literal (after the opening quote),
returning the decoded characters and the remainder after the closing quote.
Raw control characters below U+0020 are rejected, as by `JSON.parse`.
Surrogate pairs written as two `\u` escapes are combined. The fuel argument
is only a structural-recursion bound; every step consumes at least one input
character, so `parseStringBody` supplies `length + 1`. -/
def parseStringBodyF : Nat → List Char → Option (List Char × List Char)
  | 0, _ => none
  | _ + 1, [] => none
  | fuel + 1, c :: rest =>
    if c = '"' then some ([], rest)
    else if c = '\\' then
      match rest with
      | [] => none
      | e :: rest2 =>
        let simpleEsc : Option Char :=
          if e = '"' then some '"'
          else if e = '\\' then some '\\'
          else if e = '/' then some '/'
          else if e = 'b' then some (Char.ofNat 8)
          else if e = 'f' then some (Char.ofNat 12)
          else if e = 'n' then some '\n'
          else if e = 'r' then some '\r'
          else if e = 't' then some '\t'
          else none
        match simpleEsc with
        | some d =>
          match parseStringBodyF fuel rest2 with
          | some (cs, rem) => some (d :: cs, rem)
          | none => none
        | none =>
          if e = 'u' then
            match parseHex4 rest2 with
            | none => none
            | some (n, rest3) =>
              match decodeUnicodeEsc n rest3 with
              | (decoded, rest4) =>
                match parseStringBodyF fuel rest4 with
                | some (cs, rem) => some (decoded ++ cs, rem)
                | none => none
          else none
    else if c.toNat < 0x20 then none
    else
      match parseStringBodyF fuel rest with
      | some (cs, rem) => some (c :: cs, rem)
      | none => none

/-- Parse a JSON string literal body with sufficient fuel. -/
def parseStringBody (cs : List Char) : Option (List Char × List Char) :=
  parseStringBodyF (cs.length + 1) cs

/-- Read a run of decimal digits, returning their value, their count and the
remainder. -/
def parseDigits : List Char → Nat → Nat → Nat × Nat × List Char
  | [], acc, cnt => (acc, cnt, [])
  | c :: rest, acc, cnt =>
    if isDigitCh c then parseDigits rest (acc * 10 + (c.toNat - '0'.toNat)) (cnt + 1)
    else (acc, cnt, c :: rest)

/-- Finish parsing a JSON number after its mantissa: an optional exponent
part. `mant` is the mantissa's digit value, `fracLen` the number of fraction
digits. -/
def parseNumTail (neg : Bool) (mant fracLen : Nat) (cs3 : List Char) :
    Option ((Int × Int) × List Char) :=
  let m : Int := if neg then -(mant : Int) else (mant : Int)
  match cs3 with
  | 'e' :: rest | 'E' :: rest =>
    let (eneg, rest2) : Bool × List Char :=
      match rest with
      | '+' :: r => (false, r)
      | '-' :: r => (true, r)
      | _ => (false, rest)
    let (ev, ec, cs4) := parseDigits rest2 0 0
    if ec = 0 then none
    else some ((m, (if eneg then -(ev : Int) else (ev : Int)) - (fracLen : Int)), cs4)
  | _ => some ((m, -(fracLen : Int)), cs3)

/-- Parse a JSON number literal (grammar of RFC 8259: optional minus, integer
part without leading zeros, optional fraction, optional exponent), returning
its mantissa and decimal exponent. -/
def parseNumber (cs : List Char) : Option ((Int × Int) × List Char) :=
  let (neg, cs1) : Bool × List Char :=
    match cs with
    | '-' :: rest => (true, rest)
    | _ => (false, cs)
  match cs1 with
  | [] => none
  | c :: ctail =>
    if ¬ isDigitCh c then none
    else if c = '0' && (match ctail with | d :: _ => isDigitCh d | [] => false) then
      none
    else
      let (ip, _, cs2) := parseDigits cs1 0 0
      match cs2 with
      | '.' :: rest =>
        let (fp, fc, cs3) := parseDigits rest ip 0
        if fc = 0 then none
        else parseNumTail neg fp fc cs3
      | _ => parseNumTail neg ip 0 cs2

/-- Check that the input starts with the given literal word and return the
remainder. -/
def eatWord : List Char → List Char → Option (List Char)
  | [], cs => some cs
  | w :: ws, c :: cs => if c = w then eatWord ws cs else none
  | _ :: _, [] => none

mutual

/-- Fuel-indexed JSON value parser, modelling `JSON.parse`'s grammar. The
fuel only bounds nesting; `parseJson` supplies enough for any input. -/
def parseValue : Nat → List Char → Option (Json × List Char)
  | 0, _ => none
  | _ + 1, [] => none
  | fuel + 1, c :: rest =>
    if c = '"' then
      match parseStringBody rest with
      | some (cs, rem) => some (.str (String.mk cs), rem)
      | none => none
    else if c = lbrace then
      match skipWs rest with
      | c2 :: rest2 =>
        if c2 = rbrace then some (.obj [], rest2)
        else
          match parseMembers fuel (c2 :: rest2) with
          | some (fields, rem) => some (.obj fields, rem)
          | none => none
      | [] => none
    else if c = '[' then
      match skipWs rest with
      | c2 :: rest2 =>
        if c2 = ']' then some (.arr [], rest2)
        else
          match parseElements fuel (c2 :: rest2) with
          | some (elems, rem) => some (.arr elems, rem)
          | none => none
      | [] => none
    else if c = 't' then
      match eatWord ['r', 'u', 'e'] rest with
      | some rem => some (.bool true, rem)
      | none => none
    else if c = 'f' then
      match eatWord ['a', 'l', 's', 'e'] rest with
      | some rem => some (.bool false, rem)
      | none => none
    else if c = 'n' then
      match eatWord ['u', 'l', 'l'] rest with
      | some rem => some (.null, rem)
      | none => none
    else
      match parseNumber (c :: rest) with
      | some ((m, e), rem) => some (.num m e, rem)
      | none => none

/-- Parse one or more comma-separated array elements up to the closing
bracket. -/
def parseElements : Nat → List Char → Option (List Json × List Char)
  | 0, _ => none
  | fuel + 1, cs =>
    match parseValue fuel (skipWs cs) with
    | none => none
    | some (v, rem) =>
      match skipWs rem with
      | ',' :: rest =>
        match parseElements fuel rest with
        | some (vs, rem2) => some (v :: vs, rem2)
        | none => none
      | ']' :: rest => some ([v], rest)
      | _ => none

/-- Parse one or more comma-separated object members up to the closing
brace. -/
def parseMembers : Nat → List Char → Option (List (String × Json) × List Char)
  | 0, _ => none
  | fuel + 1, cs =>
    match skipWs cs with
    | '"' :: rest =>
      match parseStringBody rest with
      | none => none
      | some (key, rem) =>
        match skipWs rem with
        | ':' :: rest2 =>
          match parseValue fuel (skipWs rest2) with
          | none => none
          | some (v, rem2) =>
            match skipWs rem2 with
            | ',' :: rest3 =>
              match parseMembers fuel rest3 with
              | some (fields, rem3) => some ((String.mk key, v) :: fields, rem3)
              | none => none
            | c :: rest3 =>
              if c = rbrace then some ([(String.mk key, v)], rest3) else none
            | [] => none
        | _ => none
    | _ => none

end

/-- `JSON.parse`: parse a complete JSON document, requiring only whitespace
after the value. `none` models a thrown `SyntaxError`. -/
def parseJson (s : String) : Option Json :=
  match parseValue (s.length + 1) (skipWs s.data) with
  | some (v, rem) => if skipWs rem = [] then some v else none
  | none => none

example : parseJson "null" = some .null := by rfl
example : parseJson "  true " = some (.bool true) := by rfl
example : parseJson "\"hi\"" = some (.str "hi") := by rfl
example : parseJson "[1, 2]" = some (.arr [.num 1 0, .num 2 0]) := by rfl
example : parseJson "-1.5e2" = some (.num (-15) 1) := by rfl
example : parseJson "\x7b\"a\": 1, \"b\": [true, null]\x7d" =
    some (.obj [("a", .num 1 0), ("b", .arr [.bool true, .null])]) := by rfl
example : parseJson "\x7b\"a\":1\x7d x" = none := by rfl
example : parseJson "01" = none := by rfl
example : parseJson "" = none := by rfl
example : parseJson "not json at all" = none := by rfl

/-!
## Stream Chunk Parser (src/components/message.tsx, `Message.renderContent`
and `Message.renderChunk`)

JavaScript exceptions are modelled explicitly with `Except JsErr`; the
`try`/`catch` blocks of the source become `tryCatchJs`. A thrown exception
is either the `SyntaxError` of `JSON.parse` or the `TypeError` of a property
access on `null`.
-/

/-- JavaScript exceptions relevant to the embedded code. -/
inductive JsErr where
  | syntaxError : JsErr
  | typeError : JsErr

/-- A `try`/`catch` block: run the body; on a thrown exception run the
handler. -/
def tryCatchJs {α : Type} (body : Except JsErr α) (handler : JsErr → Except JsErr α) :
    Except JsErr α :=
  match body with
  | .ok a => .ok a
  | .error e => handler e

/-- `JSON.parse` with its thrown `SyntaxError` made explicit. -/
def jsonParseE (s : String) : Except JsErr Json :=
  match parseJson s with
  | some v => .ok v
  | none => .error .syntaxError

/-- JavaScript property read `v.k` on a parsed JSON value: reading a property
of `null` throws a `TypeError`; objects yield the field (last duplicate wins)
or `undefined` (`none`); every other value (string, number, boolean, array)
yields `undefined` for the property names used here. -/
def jsGet (v : Json) (k : String) : Except JsErr (Option Json) :=
  match v with
  | .null => .error .typeError
  | .obj fields => .ok (objGet fields k)
  | _ => .ok none

/-- A rendered element of the message body: a paragraph (from a `text` chunk
or from a plain-text fallback line), a `ColorTable`, or a `SelectionInfo`
block, each bound to the value that the source passes to the JSX element. -/
inductive RElement where
  | para (v : Json) : RElement
  | colorTable (data : Json) : RElement
  | selectionInfo (data : Json) : RElement

/-- `Message.renderChunk` (message.tsx lines 58-94): dispatch on
`chunk.type`, then for tool calls on `chunk.name`, guarded by truthiness of
`chunk.content` / `chunk.data`; every unrecognized shape returns `null`
(`none`). Reading `.type` of a parsed `null` throws. -/
def renderChunkE (chunk : Json) : Except JsErr (Option RElement) :=
  match jsGet chunk "type" with
  | .error e => .error e
  | .ok t =>
    match t with
    | some (Json.str tv) =>
      if tv = "text" then
        match jsGet chunk "content" with
        | .error e => .error e
        | .ok c =>
          .ok (match c with
            | some v => if truthy v then some (.para v) else none
            | none => none)
      else if tv = "tool-call" then
        match jsGet chunk "name" with
        | .error e => .error e
        | .ok n =>
          match n with
          | some (Json.str nv) =>
            if nv = "getColorInfo" then
              match jsGet chunk "data" with
              | .error e => .error e
              | .ok dt =>
                .ok (match dt with
                  | some v => if truthy v then some (.colorTable v) else none
                  | none => none)
            else if nv = "getSelectionInfo" then
              match jsGet chunk "data" with
              | .error e => .error e
              | .ok dt =>
                .ok (match dt with
                  | some v => if truthy v then some (.selectionInfo v) else none
                  | none => none)
            else .ok none
          | _ => .ok none
      else .ok none
    | _ => .ok none

/-- JavaScript `String.prototype.split('\n')`. -/
def splitLines (s : String) : List String :=
  splitLinesAux s.data [] |>.map String.mk
where
  /-- Split a character list at every newline, keeping empty segments. -/
  splitLinesAux : List Char → List Char → List (List Char)
    | [], acc => [acc.reverse]
    | c :: rest, acc =>
      if c = '\n' then acc.reverse :: splitLinesAux rest []
      else splitLinesAux rest (c :: acc)

/-- Whitespace for JavaScript `String.prototype.trim` (ASCII whitespace,
no-break space, BOM; exotic Unicode spaces are not needed by the inputs
considered here). -/
def isJsTrimWs (c : Char) : Bool :=
  c = ' ' || c = '\t' || c = '\n' || c = '\r' || c = Char.ofNat 11 ||
  c = Char.ofNat 12 || c = Char.ofNat 0xa0 || c = Char.ofNat 0xfeff

/-- JavaScript `line.trim()`. -/
def jsTrim (s : String) : String :=
  String.mk (((s.data.dropWhile isJsTrimWs).reverse.dropWhile isJsTrimWs).reverse)

/-- The body of the `lines.forEach` callback (message.tsx lines 35-52) for
one line: blank lines are skipped; a line that parses as JSON is rendered as
a chunk (contributing one element or none); a line whose parse (or whose
chunk rendering) throws is pushed as a plain-text paragraph. The inner
`try`/`catch` makes this total. -/
def processLineE (line : String) : Except JsErr (List RElement) :=
  if jsTrim line = "" then .ok []
  else
    tryCatchJs
      (match jsonParseE line with
       | .error e => .error e
       | .ok chunk =>
         match renderChunkE chunk with
         | .error e => .error e
         | .ok (some el) => .ok [el]
         | .ok none => .ok [])
      (fun _ => .ok [.para (.str line)])

/-- The line-by-line fallback of `renderContent`: process every line of
`content.split('\n')` in order, concatenating the produced elements. -/
def renderLines : List String → Except JsErr (List RElement)
  | [] => .ok []
  | l :: rest =>
    match processLineE l with
    | .error e => .error e
    | .ok es =>
      match renderLines rest with
      | .error e => .error e
      | .ok rest' => .ok (es ++ rest')

/-- `Message.renderContent` (message.tsx lines 22-56): first try to parse the
whole content as a single JSON chunk and render it (`[element]` or `[]`); if
parsing or rendering throws, fall back to line-by-line processing. -/
def renderContentE (content : String) : Except JsErr (List RElement) :=
  tryCatchJs
    (match jsonParseE content with
     | .error e => .error e
     | .ok chunk =>
       match renderChunkE chunk with
       | .error e => .error e
       | .ok (some el) => .ok [el]
       | .ok none => .ok [])
    (fun _ => renderLines (splitLines content))

example : renderContentE "not json at all" = .ok [.para (.str "not json at all")] := by rfl
example : renderContentE "" = .ok [] := by rfl
example : renderContentE "\x7b\"type\":\"text\",\"content\":\"hi\"\x7d" =
    .ok [.para (.str "hi")] := by rfl
example : renderContentE "null" = .ok [.para (.str "null")] := by rfl
example : renderContentE "[1]" = .ok [] := by rfl

/-!
## Chat Endpoint (src/app/api/chat/route.ts, `POST`)

The embedding covers the request guard (lines 101-108), the intent keyword
heuristic (lines 111-115), the provider chat-history construction (lines
204-220) and the action-branch stream processing (lines 248-307). The prompt
rewriting of lines 117-202 (action template, selection description) affects
only the text of the final `user` turn; it is abstracted as a
`promptRewrite` parameter, and every theorem below holds for an arbitrary
rewrite.
-/

/-- An incoming chat message (`Message` of the `ai` package): a role string
and a content string. `content` is `Option` because a malformed request body
may omit it (the code guards `!lastMessage.content`); the unused `id` field
is not modelled. -/
structure InMsg where
  role : String
  content : Option String
deriving DecidableEq

/-- One entry of the provider chat history: `{role, parts: [{text}]}` with a
single text part. -/
structure GMsg where
  role : String
  text : Option String
deriving DecidableEq

/-- The fixed system instruction prepended to every provider chat history
(route.ts lines 38-99). -/
def systemPrompt : String :=
  "You are a Design System Copilot, an AI assistant specialized in helping designers and developer" ++
  "s implement and maintain design systems in Figma. You have expertise in:\n\n1. Design Tokens an" ++
  "d their implementation\n2. Component architecture and best practices\n3. Design system document" ++
  "ation\n4. Accessibility guidelines\n5. Figma best practices and organization\n6. Version contro" ++
  "l and change management for design systems\n\nWhen the user requests an action like cloning, cr" ++
  "eating, or modifying elements in Figma, respond with a valid Automator script in this exact JSO" ++
  "N format:\n\n\x7b\n  \"id\": \"script-[timestamp]\",\n  \"name\": \"Action Name\",\n  \"descrip" ++
  "tion\": \"What this script does\",\n  \"color\": \"green\",\n  \"actions\": [\n    \x7b\n      " ++
  "\"id\": \"action-[timestamp]\",\n      \"command\": \x7b\n        \"name\": \"commandName\",\n " ++
  "       \"metadata\": \x7b\x7d,\n        \"title\": \"Command Title\",\n        \"description\":" ++
  " \"Command Description\"\n      \x7d,\n      \"actions\": []\n    \x7d\n  ],\n  \"createdAt\": " ++
  "[timestamp]\n\x7d\n\nAvailable commands:\n- cloneFrame: Clones the selected frame\n- createVari" ++
  "ant: Creates a new component variant\n- convertToComponent: Converts selection to component\n- " ++
  "setInstanceProperty: Sets component instance property\n- setVariable: Sets variable value\n\nFo" ++
  "r example, when asked to clone a frame, respond with exactly:\n\x7b\n  \"id\": \"script-1234567" ++
  "890\",\n  \"name\": \"Clone Frame\",\n  \"description\": \"Clones the selected frame\",\n  \"co" ++
  "lor\": \"green\",\n  \"actions\": [\n    \x7b\n      \"id\": \"action-1234567890\",\n      \"co" ++
  "mmand\": \x7b\n        \"name\": \"cloneFrame\",\n        \"metadata\": \x7b\x7d,\n        \"ti" ++
  "tle\": \"Clone Frame\",\n        \"description\": \"Creates a copy of the selected frame\"\n   " ++
  "   \x7d,\n      \"actions\": []\n    \x7d\n  ],\n  \"createdAt\": 1704464968000\n\x7d\n\nWhen a" ++
  "sked about the current selection in Figma, analyze the selection data provided and give a clear" ++
  " description of what is selected.\n\nFor other queries, provide clear explanations and best pra" ++
  "ctices in markdown format."

/-- Does `needle` start the list? -/
def listStartsWith : List Char → List Char → Bool
  | n :: ns, h :: hs => n = h && listStartsWith ns hs
  | needle, _ => needle.isEmpty

/-- Substring containment over characters (`String.prototype.includes`). -/
def containsSub (needle hay : List Char) : Bool :=
  match hay with
  | [] => listStartsWith needle []
  | _ :: tl => listStartsWith needle hay || containsSub needle tl

/-- JavaScript `hay.includes(needle)`. -/
def includesStr (hay needle : String) : Bool := containsSub needle.data hay.data

/-- JavaScript `s.toLowerCase()` (ASCII case mapping, which covers the
keyword tests of the source). -/
def jsToLower (s : String) : String := String.mk (s.data.map Char.toLower)

/-- The action-intent keyword heuristic (route.ts lines 111-115): the
lower-cased prompt contains one of `clone`, `create`, `convert`, `set`,
`make`. -/
def isActionRequest (prompt : String) : Bool :=
  includesStr (jsToLower prompt) "clone" ||
  includesStr (jsToLower prompt) "create" ||
  includesStr (jsToLower prompt) "convert" ||
  includesStr (jsToLower prompt) "set" ||
  includesStr (jsToLower prompt) "make"

/-- The provider chat history (route.ts lines 204-220): map every message
but the last with `assistant`/anything-not-`user` to `model` and `user` to
`user`, prepend the fixed system instruction as a `model` turn, and append
the current prompt as the final `user` turn. -/
def buildChatHistory (messages : List InMsg) (prompt : String) : List GMsg :=
  let chatHistory := messages.dropLast.map
    (fun m => { role := if m.role = "user" then "user" else "model", text := m.content })
  ({ role := "model", text := some systemPrompt } :: chatHistory) ++
    [{ role := "user", text := some prompt }]

/-- Outcome of the `POST` handler up to the provider invocation: either the
HTTP 400 response `'No message content'` (returned at line 107, before
`model.generateContentStream` is reached), or the provider call made with
the built chat history and the computed intent classification. -/
inductive PostResult where
  | badRequest : PostResult
  | providerCall (contents : List GMsg) (isAction : Bool) : PostResult

/-- The `POST` handler of route.ts from the guard of lines 104-108 through
the provider call of line 225: `messages[messages.length-1]` missing or with
falsy `content` short-circuits to HTTP 400; otherwise the provider is called
with the chat history built from the messages and the (rewritten) prompt.
`promptRewrite` abstracts the prompt rewriting of lines 117-202. -/
def postRoute (promptRewrite : String → String) (messages : List InMsg) : PostResult :=
  match messages.getLast? with
  | none => .badRequest
  | some lastMessage =>
    match lastMessage.content with
    | none => .badRequest
    | some c =>
      if c = "" then .badRequest
      else .providerCall (buildChatHistory messages (promptRewrite c)) (isActionRequest c)

/-- Index of the first occurrence of a character. -/
def firstIdxOf (c : Char) : List Char → Option Nat
  | [] => none
  | h :: tl =>
    if h = c then some 0
    else match firstIdxOf c tl with
      | some i => some (i + 1)
      | none => none

/-- Index of the last occurrence of a character. -/
def lastIdxOf (c : Char) (cs : List Char) : Option Nat :=
  match firstIdxOf c cs.reverse with
  | some k => some (cs.length - 1 - k)
  | none => none

/-- `fullResponse.match(/\{[\s\S]*\}/)` (route.ts line 257): the regex is
greedy, so a match, when one exists, runs from the first opening brace to
the last closing brace after it. -/
def extractJsonBlock (s : String) : Option String :=
  match firstIdxOf lbrace s.data, lastIdxOf rbrace s.data with
  | some i, some j =>
    if i < j then some (String.mk ((s.data.drop i).take (j - i + 1))) else none
  | _, _ => none

/-- Property access on a parsed JSON value where the base is known not to be
`null`/`undefined` (objects yield their field or `undefined`; primitives and
arrays yield `undefined` for the property names used here). -/
def jsPropGet (v : Json) (k : String) : Option Json :=
  match v with
  | .obj fields => objGet fields k
  | _ => none

/-- Optional chaining `base?.<step>`: `undefined` and `null` short-circuit
to `undefined`. -/
def optChain (v : Option Json) (f : Json → Option Json) : Option Json :=
  match v with
  | none => none
  | some .null => none
  | some w => f w

/-- JavaScript `x[0]`: array element, object property `"0"`, or character of
a string. -/
def jsIdx0 : Json → Option Json
  | .arr (x :: _) => some x
  | .arr [] => none
  | .obj fields => objGet fields "0"
  | .str s =>
    match s.data with
    | c :: _ => some (.str (String.mk [c]))
    | [] => none
  | _ => none

/-- JavaScript `a || b` where `a` may be `undefined`: the left value if
truthy, otherwise the default. -/
def jsOrDefault (v : Option Json) (dflt : Json) : Json :=
  if truthyOpt v then v.getD Json.null else dflt

/-- `parsed.actions?.[0]?.command?.<k>` (route.ts lines 271-274). -/
def firstCommandField (parsed : Json) (k : String) : Option Json :=
  optChain
    (optChain (optChain (jsPropGet parsed "actions") jsIdx0)
      (fun c => jsPropGet c "command"))
    (fun c => jsPropGet c k)

/-- The sanitized script object rebuilt from the parsed model response
(route.ts lines 263-279). -/
def cleanJson (timestamp : Nat) (parsed : Json) : Json :=
  Json.obj [
    ("id", .str ("script-" ++ toString timestamp)),
    ("name", jsOrDefault (jsPropGet parsed "name") (.str "Automator Action")),
    ("description", jsOrDefault (jsPropGet parsed "description")
      (.str "Executes the requested action")),
    ("color", .str "green"),
    ("actions", .arr [Json.obj [
      ("id", .str ("action-" ++ toString timestamp)),
      ("command", Json.obj [
        ("name", jsOrDefault (firstCommandField parsed "name") (.str "cloneFrame")),
        ("metadata", Json.obj []),
        ("title", jsOrDefault (firstCommandField parsed "title") (.str "Execute Action")),
        ("description", jsOrDefault (firstCommandField parsed "description")
          (.str "Executes the requested action"))]),
      ("actions", Json.arr [])]]),
    ("createdAt", .num timestamp 0)]

/-- The canned fallback script emitted when no `{...}` block is found
(route.ts lines 285-301). -/
def fallbackJson (timestamp : Nat) : Json :=
  Json.obj [
    ("id", .str ("script-" ++ toString timestamp)),
    ("name", .str "Clone Frame"),
    ("description", .str "Clones the selected frame"),
    ("color", .str "green"),
    ("actions", .arr [Json.obj [
      ("id", .str ("action-" ++ toString timestamp)),
      ("command", Json.obj [
        ("name", .str "cloneFrame"),
        ("metadata", Json.obj []),
        ("title", .str "Clone Frame"),
        ("description", .str "Creates a copy of the selected frame")]),
      ("actions", Json.arr [])]]),
    ("createdAt", .num timestamp 0)]

/-- Outcome of the action-request branch of the response stream (route.ts
lines 248-307): either a single chunk is enqueued (the serialization of the
given object, followed by `controller.close()`), or the stream is errored
via `controller.error` in the `catch` of lines 304-307. -/
inductive ActionOutcome where
  | emit (payload : Json) : ActionOutcome
  | errored : ActionOutcome

/-- The action-request branch of the stream `start` callback, given the
fully buffered model response: extract the brace block; if none, emit the
fallback script; if found, `JSON.parse` it — on success emit the sanitized
script, and on a thrown parse error fall into the `catch`, which errors the
stream. -/
def actionBranch (fullResponse : String) (timestamp : Nat) : ActionOutcome :=
  match extractJsonBlock fullResponse with
  | some jsonStr =>
    match parseJson jsonStr with
    | some parsed => .emit (cleanJson timestamp parsed)
    | none => .errored
  | none => .emit (fallbackJson timestamp)

example : extractJsonBlock "x\x7ba\x7dy\x7bb\x7dz" = some "\x7ba\x7dy\x7bb\x7d" := by rfl
example : extractJsonBlock "no braces" = none := by rfl
example : actionBranch "no braces" 5 = .emit (fallbackJson 5) := by rfl
example : actionBranch "\x7ba\x7d" 0 = .errored := by rfl
example : actionBranch "\x7b\"name\":\"N\"\x7d" 1 =
    .emit (cleanJson 1 (.obj [("name", .str "N")])) := by rfl

example : isActionRequest "Please Clone this frame" = true := by rfl
example : isActionRequest "hello there" = false := by rfl
example : isActionRequest "the sunset is nice" = true := by rfl

/-!
## Command Executor (src/plugin/code.ts, `executeAutomatorAction` and the
`EXECUTE_AUTOMATOR` message handler)

The Figma document is modelled concretely: scene nodes (with capability
flags for the `'field' in node` guards of the source), variable collections
and variables, keyed by numeric ids. Geometry is modelled with integers;
host string coercion of non-string values (when the source assigns
`metadata` entries to string-typed host fields) is approximated by
`jsDisplayOpt`. The modelled host operations are total; a thrown error
during script execution is modelled at the message-handler level, where the
executor is an arbitrary function that may report an error (`runScriptActions`,
`handleExecuteAutomator`).
-/

/-- `AutomatorCommand` (code.ts lines 396-401): `metadata` is a
`Record<string, any>` of JSON values. -/
structure AutomatorCommand where
  name : String
  metadata : List (String × Json)
  title : String
  description : String

/-- `AutomatorAction` (code.ts lines 403-407): a recursive tree of
commands. -/
inductive AutomatorAction where
  | mk (id : String) (command : AutomatorCommand) (actions : List AutomatorAction)

/-- The `id` field of an action. -/
def AutomatorAction.idStr : AutomatorAction → String
  | .mk i _ _ => i

/-- The `command` field of an action. -/
def AutomatorAction.command : AutomatorAction → AutomatorCommand
  | .mk _ c _ => c

/-- The nested `actions` field of an action. -/
def AutomatorAction.actions : AutomatorAction → List AutomatorAction
  | .mk _ _ acts => acts

/-- `AutomatorScript` (code.ts lines 409-416). -/
structure AutomatorScript where
  id : String
  name : String
  description : String
  color : String
  actions : List AutomatorAction
  createdAt : Int

/-- A scene node of the modelled document. The `can…`/`has…` flags model the
`'field' in node` capability guards of the source; `props` models component
properties written by `setProperties`; `boundVars` models variable bindings
written by `setBoundVariable` (field name to variable id). -/
structure SceneNode where
  nodeType : String
  name : String
  x : Int
  y : Int
  width : Int
  height : Int
  parentId : Option Nat
  canClone : Bool
  hasXY : Bool
  hasWH : Bool
  canSetProps : Bool
  hasBoundVars : Bool
  props : List (String × Option Json)
  boundVars : List (String × Nat)

/-- A Figma variable: a name and its per-mode values (mode id to value; the
value is the JSON payload the script supplied, `none` when the script's
`metadata.value` was absent). -/
structure FigVariable where
  name : String
  valuesByMode : List (String × Option Json)

/-- A local variable collection: its member variable ids and its default
mode. -/
structure FigVarCollection where
  variableIds : List Nat
  defaultModeId : String

/-- The modelled document: scene nodes and variables keyed by id, a fresh-id
counter for node creation, the current page (new components are appended to
it), and the local variable collections in `getLocalVariableCollections`
order. -/
structure FigDoc where
  nodes : List (Nat × SceneNode)
  nextId : Nat
  currentPageId : Nat
  collections : List FigVarCollection
  vars : List (Nat × FigVariable)

/-- Node lookup by id. -/
def lookupNode (d : FigDoc) (i : Nat) : Option SceneNode :=
  (d.nodes.find? (fun p => p.1 = i)).map (fun p => p.2)

/-- Update the node with the given id (mutation through an object reference
in the source). -/
def updateNode (d : FigDoc) (i : Nat) (f : SceneNode → SceneNode) : FigDoc :=
  { d with nodes := d.nodes.map (fun p => if p.1 = i then (p.1, f p.2) else p) }

/-- `figma.variables.getVariableById` (returns `null` for an unknown id). -/
def lookupVar (d : FigDoc) (i : Nat) : Option FigVariable :=
  (d.vars.find? (fun p => p.1 = i)).map (fun p => p.2)

/-- Update the variable with the given id. -/
def updateVar (d : FigDoc) (i : Nat) (f : FigVariable → FigVariable) : FigDoc :=
  { d with vars := d.vars.map (fun p => if p.1 = i then (p.1, f p.2) else p) }

/-- Keyed assignment into an association list: replace the existing entry or
append a new one (JavaScript object/`Map` assignment). -/
def assocSet {α : Type} (l : List (String × α)) (k : String) (v : α) : List (String × α) :=
  if l.any (fun p => p.1 = k) then l.map (fun p => if p.1 = k then (k, v) else p)
  else l ++ [(k, v)]

/-- Record field read (`metadata.key` on a `Record<string, any>`). -/
def recGet (metadata : List (String × Json)) (k : String) : Option Json :=
  objGet metadata k

/-- Approximate JavaScript string coercion of a value assigned to a
string-typed host field (only its totality matters here; no theorem inspects
these strings). -/
def jsDisplay : Json → String
  | .null => "null"
  | .bool b => if b then "true" else "false"
  | .num m e => if e = 0 then toString m else toString m ++ "e" ++ toString e
  | .str s => s
  | .arr _ => ""
  | .obj _ => "[object Object]"

/-- String coercion of a possibly-`undefined` value. -/
def jsDisplayOpt : Option Json → String
  | none => "undefined"
  | some v => jsDisplay v

/-- `figma.createComponent()`: a fresh default `COMPONENT` node (100×100 at
the origin) appended to the current page. -/
def createComponent (d : FigDoc) : Nat × FigDoc :=
  let comp : SceneNode :=
    { nodeType := "COMPONENT", name := "Component", x := 0, y := 0,
      width := 100, height := 100, parentId := some d.currentPageId,
      canClone := true, hasXY := true, hasWH := true, canSetProps := false,
      hasBoundVars := true, props := [], boundVars := [] }
  (d.nextId, { d with nodes := d.nodes ++ [(d.nextId, comp)], nextId := d.nextId + 1 })

/-- `node.clone()`: a fresh node with the source node's fields (same parent
until reparented). -/
def cloneNode (d : FigDoc) (src : SceneNode) : Nat × FigDoc :=
  (d.nextId, { d with nodes := d.nodes ++ [(d.nextId, src)], nextId := d.nextId + 1 })

/-- `figma.combineAsVariants(nodes, parent)`: create a `COMPONENT_SET` under
`parent` and reparent the given nodes into it. -/
def combineAsVariants (d : FigDoc) (nodeIds : List Nat) (parent : Nat) : Nat × FigDoc :=
  let csId := d.nextId
  let cs : SceneNode :=
    { nodeType := "COMPONENT_SET", name := "Component Set", x := 0, y := 0,
      width := 100, height := 100, parentId := some parent,
      canClone := true, hasXY := true, hasWH := true, canSetProps := false,
      hasBoundVars := true, props := [], boundVars := [] }
  let d1 := { d with nodes := d.nodes ++ [(csId, cs)], nextId := d.nextId + 1 }
  (csId, nodeIds.foldl (fun acc nid =>
    updateNode acc nid (fun n => { n with parentId := some csId })) d1)

/-- `node.name.split('=')[0]`. -/
def takeUntilEq (s : String) : String :=
  String.mk (s.data.takeWhile (fun c => c ≠ '='))

/-- The `cloneFrame` case (code.ts lines 422-437). -/
def cmdCloneFrame (selection : List Nat) (d : FigDoc) : FigDoc :=
  match selection with
  | [] => d
  | nid :: _ =>
    match lookupNode d nid with
    | none => d
    | some node =>
      if node.canClone then
        let (cid, d1) := cloneNode d node
        let d2 :=
          if node.hasXY && node.hasWH then
            updateNode d1 cid (fun c => { c with x := node.x + node.width + 100 })
          else d1
        match node.parentId with
        | some p => updateNode d2 cid (fun c => { c with parentId := some p })
        | none => d2
      else d

/-- The `createVariant` case (code.ts lines 439-494). -/
def cmdCreateVariant (metadata : List (String × Json)) (selection : List Nat)
    (d : FigDoc) : FigDoc :=
  match selection with
  | [] => d
  | nid :: _ =>
    match lookupNode d nid with
    | none => d
    | some node =>
      let variantName := recGet metadata "variantName"
      if node.nodeType = "COMPONENT" then
        let (vid, d1) := createComponent d
        if node.hasWH && node.hasXY then
          let d2 := updateNode d1 vid (fun v =>
            { v with width := node.width, height := node.height,
                     x := node.x, y := node.y + node.height + 100 })
          let d3 :=
            if node.canClone then
              let (cid, d2') := cloneNode d2 node
              updateNode d2' cid (fun c => { c with parentId := some vid })
            else d2
          let d4 := updateNode d3 vid (fun v => { v with name := jsDisplayOpt variantName })
          match node.parentId with
          | some p =>
            match lookupNode d4 p with
            | some pn =>
              if pn.nodeType = "COMPONENT_SET" then
                updateNode d4 vid (fun v => { v with parentId := some p })
              else
                let (csId, d5) := combineAsVariants d4 [nid, vid] p
                updateNode d5 csId (fun cs => { cs with name := takeUntilEq node.name })
            | none =>
              let (csId, d5) := combineAsVariants d4 [nid, vid] p
              updateNode d5 csId (fun cs => { cs with name := takeUntilEq node.name })
          | none => d4
        else d1
      else
        let (cid0, d1) := createComponent d
        if node.hasWH && node.hasXY then
          let d2 := updateNode d1 cid0 (fun v =>
            { v with width := node.width, height := node.height,
                     x := node.x, y := node.y })
          let d3 :=
            if node.canClone then
              let (cid, d2') := cloneNode d2 node
              updateNode d2' cid (fun c => { c with parentId := some cid0 })
            else d2
          updateNode d3 cid0 (fun v => { v with name := jsDisplayOpt variantName })
        else d1

/-- The `convertToComponent` case (code.ts lines 496-514). -/
def cmdConvertToComponent (selection : List Nat) (d : FigDoc) : FigDoc :=
  match selection with
  | [] => d
  | nid :: _ =>
    match lookupNode d nid with
    | none => d
    | some node =>
      if node.hasWH && node.hasXY then
        let (cid, d1) := createComponent d
        let d2 := updateNode d1 cid (fun v =>
          { v with x := node.x, y := node.y, width := node.width, height := node.height })
        selection.foldl (fun acc sid =>
          match lookupNode acc sid with
          | none => acc
          | some sn =>
            match sn.parentId with
            | some p =>
              updateNode
                (updateNode acc cid (fun c => { c with parentId := some p }))
                sid (fun s => { s with parentId := some cid })
            | none => acc) d2
      else d

/-- The `setInstanceProperty` case (code.ts lines 516-524). -/
def cmdSetInstanceProperty (metadata : List (String × Json)) (selection : List Nat)
    (d : FigDoc) : FigDoc :=
  match selection with
  | [] => d
  | nid :: _ =>
    match lookupNode d nid with
    | none => d
    | some node =>
      if node.canSetProps then
        let property := recGet metadata "property"
        let value := recGet metadata "value"
        updateNode d nid (fun n =>
          { n with props := assocSet n.props (jsDisplayOpt property) value })
      else d

/-- The `setVariable` case (code.ts lines 526-555): for each selected node
with bound variables, look up a variable by name in the first local
collection; when found, set its value for the collection's default mode and,
for `INSTANCE` nodes, bind it to the node under the key. A key that matches
no variable name leaves the fold's accumulator untouched. -/
def cmdSetVariable (metadata : List (String × Json)) (selection : List Nat)
    (d : FigDoc) : FigDoc :=
  if selection.isEmpty then d
  else
    let key := recGet metadata "key"
    let value := recGet metadata "value"
    selection.foldl (fun acc nid =>
      match lookupNode acc nid with
      | none => acc
      | some node =>
        if node.hasBoundVars then
          match acc.collections.head? with
          | none => acc
          | some collection =>
            match (collection.variableIds.map (fun vid => (vid, lookupVar acc vid))).find?
                (fun p =>
                  match p.2, key with
                  | some v, some (Json.str k) => v.name = k
                  | _, _ => false) with
            | some (vid, some _) =>
              let acc1 := updateVar acc vid (fun vr =>
                { vr with valuesByMode := assocSet vr.valuesByMode collection.defaultModeId value })
              let keyStr := match key with | some (Json.str k) => k | _ => ""
              if node.nodeType = "INSTANCE" then
                updateNode acc1 nid (fun n =>
                  { n with boundVars := assocSet n.boundVars keyStr vid })
              else acc1
            | _ => acc
        else acc) d

/-- The command dispatch of `executeAutomatorAction` (code.ts lines
421-556): a switch over `command.name` with no default, so an unrecognized
name falls through with no effect. -/
def execCmd (command : AutomatorCommand) (selection : List Nat) (d : FigDoc) : FigDoc :=
  if command.name = "cloneFrame" then cmdCloneFrame selection d
  else if command.name = "createVariant" then cmdCreateVariant command.metadata selection d
  else if command.name = "convertToComponent" then cmdConvertToComponent selection d
  else if command.name = "setInstanceProperty" then
    cmdSetInstanceProperty command.metadata selection d
  else if command.name = "setVariable" then cmdSetVariable command.metadata selection d
  else d

mutual

/-- `executeAutomatorAction` (code.ts lines 418-562): perform the command's
effect, then execute the nested actions in order. -/
def execAutomatorAction (selection : List Nat) : AutomatorAction → FigDoc → FigDoc
  | .mk _ command subActions, d =>
    execAutomatorList selection subActions (execCmd command selection d)

/-- Execute a list of actions in order (the `for (const subAction of
actions)` loop). -/
def execAutomatorList (selection : List Nat) : List AutomatorAction → FigDoc → FigDoc
  | [], d => d
  | a :: rest, d => execAutomatorList selection rest (execAutomatorAction selection a d)

end

/-- The `for (const action of script.actions)` loop of the
`EXECUTE_AUTOMATOR` handler, over an arbitrary action executor `f` that
returns the document state reached and optionally a thrown error: execution
stops at the first thrown error, leaving the state reached at the throw. -/
def runScriptActions {σ : Type} (f : AutomatorAction → σ → σ × Option String) :
    List AutomatorAction → σ → σ × Option String
  | [], st => (st, none)
  | a :: rest, st =>
    match f a st with
    | (st', some e) => (st', some e)
    | (st', none) => runScriptActions f rest st'

/-- A message posted to the UI via `figma.ui.postMessage`. -/
structure UIMessage where
  msgType : String
  error : Option String
  id : String
deriving DecidableEq

/-- The `EXECUTE_AUTOMATOR` case of `figma.ui.onmessage` (code.ts lines
575-596): run the script's actions inside `try`; on normal completion post
`{type: AUTOMATOR_COMPLETE, id}`, and on a thrown error post
`{type: AUTOMATOR_ERROR, error, id}` (the thrown error's message), each
exactly once. The document state reached (including the partial mutations
of a failed run) is kept — nothing is rolled back. -/
def handleExecuteAutomator {σ : Type} (f : AutomatorAction → σ → σ × Option String)
    (script : AutomatorScript) (st : σ) (msgId : String) : σ × List UIMessage :=
  match runScriptActions f script.actions st with
  | (st', none) => (st', [{ msgType := "AUTOMATOR_COMPLETE", error := none, id := msgId }])
  | (st', some e) => (st', [{ msgType := "AUTOMATOR_ERROR", error := some e, id := msgId }])

/-- The surrounding `figma.ui.onmessage` handler (code.ts lines 569-598):
messages from a foreign origin are ignored, and only `EXECUTE_AUTOMATOR` is
dispatched. -/
def onPluginMessage {σ : Type} (f : AutomatorAction → σ → σ × Option String)
    (siteUrl origin : String) (msgType : String) (script : AutomatorScript)
    (msgId : String) (st : σ) : σ × List UIMessage :=
  if origin ≠ siteUrl then (st, [])
  else if msgType = "EXECUTE_AUTOMATOR" then handleExecuteAutomator f script st msgId
  else (st, [])

/-!
## Token Extractor color projection (src/plugin/code.ts, `rgbToHex` /
`toHexColor` / `processColorVariables`)

Color components are floats in `[0,1]` in the host; they are modelled as
rationals. `Math.round` is `⌊q + 1/2⌋` (round half toward positive
infinity), and `Number.prototype.toString(16)` is lowercase hexadecimal.
-/

/-- An `RGB`/`RGBA` color object (the alpha channel is ignored by
`rgbToHex`). -/
structure RGBv where
  r : ℚ
  g : ℚ
  b : ℚ
deriving DecidableEq

/-- A `VariableValue` of the host: a direct color object (has `r`), a
variable alias object (has `id`), or a primitive. -/
inductive VariableValue where
  | color (c : RGBv) : VariableValue
  | alias (id : String) : VariableValue
  | strv (s : String) : VariableValue
  | numv (q : ℚ) : VariableValue
  | boolv (b : Bool) : VariableValue
deriving DecidableEq

/-- JavaScript `Math.round`: round half toward positive infinity. -/
def jsRound (q : ℚ) : Int := Int.floor (q + 1 / 2)

/-- Lowercase hexadecimal digit character for a value below 16. -/
def hexDigitChar (n : Nat) : Char :=
  if n < 10 then Char.ofNat ('0'.toNat + n) else Char.ofNat ('a'.toNat + (n - 10))

/-- The lowercase hexadecimal digits of a natural number
(`Number.prototype.toString(16)` for non-negative integers; `0` prints as
`"0"`). The fuel argument only bounds the digit count. -/
def natToHexF : Nat → Nat → List Char
  | 0, _ => []
  | fuel + 1, n =>
    if n < 16 then [hexDigitChar n]
    else natToHexF fuel (n / 16) ++ [hexDigitChar (n % 16)]

/-- `n.toString(16)` for a natural number. -/
def natToHex (n : Nat) : String := String.mk (natToHexF (n + 1) n)

/-- `i.toString(16)` for an integer (negative values print with a leading
minus, as in JavaScript). -/
def intToHexStr (i : Int) : String :=
  if i < 0 then "-" ++ natToHex i.natAbs else natToHex i.toNat

/-- `padHex` (code.ts lines 9-11): left-pad a single hex digit to two. -/
def padHex (hex : String) : String :=
  if hex.length = 1 then "0" ++ hex else hex

/-- `s.toUpperCase()` (ASCII case mapping, which covers hex digits and
`#`). -/
def jsToUpper (s : String) : String := String.mk (s.data.map Char.toUpper)

/-- `rgbToHex` (code.ts lines 13-18): round each channel times 255, print in
hex, pad to two digits, join behind `#`, uppercase. -/
def rgbToHex (color : RGBv) : String :=
  let r := intToHexStr (jsRound (color.r * 255))
  let g := intToHexStr (jsRound (color.g * 255))
  let b := intToHexStr (jsRound (color.b * 255))
  jsToUpper ("#" ++ padHex r ++ padHex g ++ padHex b)

/-- `toHexColor` (code.ts lines 21-28): color objects go through `rgbToHex`;
strings starting with `#` are uppercased; everything else (including alias
objects, which have no `r`) is `"N/A"`. -/
def toHexColor : VariableValue → String
  | .color c => rgbToHex c
  | .strv s =>
    if listStartsWith ['#'] s.data then jsToUpper s else "N/A"
  | _ => "N/A"

/-- A host `Variable` as used by `processColorVariables`: id, name, owning
collection, description and per-mode values (`valuesByMode` in key order,
so `Object.keys(...)[0]` is the head). -/
structure FVar where
  id : String
  name : String
  variableCollectionId : String
  description : String
  valuesByMode : List (String × VariableValue)
deriving DecidableEq

/-- A host `VariableCollection` as used by `processColorVariables`. -/
structure FCollection where
  id : String
  name : String
  modes : List (String × String)
deriving DecidableEq

/-- An entry of the brand color map: the referenced color's hex value and
the referencing variable's name. -/
structure BrandEntry where
  value : String
  name : String
deriving DecidableEq

/-- `Map.prototype.set`: replace the entry with the key, or append. -/
def mapSet (m : List (String × BrandEntry)) (k : String) (v : BrandEntry) :
    List (String × BrandEntry) :=
  if m.any (fun p => p.1 = k) then m.map (fun p => if p.1 = k then (k, v) else p)
  else m ++ [(k, v)]

/-- `Map.prototype.get`. -/
def mapGet (m : List (String × BrandEntry)) (k : String) : Option BrandEntry :=
  (m.find? (fun p => p.1 = k)).map (fun p => p.2)

/-- One step of the brand color map construction: a variable whose
first-mode value is a direct color object is entered under its id; any other
variable (alias- or primitive-valued) is skipped. -/
def brandStep (m : List (String × BrandEntry)) (vr : FVar) : List (String × BrandEntry) :=
  match vr.valuesByMode.head? with
  | some (_, VariableValue.color c) =>
    mapSet m vr.id { value := toHexColor (.color c), name := vr.name }
  | _ => m

/-- Does the variable's first-mode value satisfy the brand-map guard
(`typeof value === 'object' && 'r' in value`)? -/
def colorHeaded (vr : FVar) : Bool :=
  match vr.valuesByMode.head? with
  | some (_, VariableValue.color _) => true
  | _ => false

/-- The brand color map construction (code.ts lines 137-152): over the
variables of the `Brand Colors` collection, enter those whose first-mode
value is a direct color object (`typeof value === 'object' && 'r' in
value`), mapping the variable's id to its hex value and name. Variables
whose first-mode value is an alias (or any non-color) are not entered. -/
def mkBrandColorMap (colorVariables : List FVar) (collections : List FCollection) :
    List (String × BrandEntry) :=
  match collections.find? (fun c => c.name = "Brand Colors") with
  | none => []
  | some brandCollection =>
    (colorVariables.filter (fun v => v.variableCollectionId = brandCollection.id)).foldl
      brandStep []

/-- One output row of `processColorVariables` (the `ColorVariable` shape of
code.ts lines 41-46). -/
structure ColorVariable where
  name : String
  value : String
  description : String
  resolvedValue : Option String
deriving DecidableEq

/-- `variable.valuesByMode[modeId]` (`undefined`, i.e. `none`, when the mode
has no value). -/
def modeValueOf (vr : FVar) (modeId : String) : Option VariableValue :=
  (vr.valuesByMode.find? (fun p => p.1 = modeId)).map (fun p => p.2)

/-- The per-variable, per-mode body of `processColorVariables` (code.ts
lines 188-221): a direct color value resolves to its own hex; an alias
value resolves through the brand color map when the referenced id is
present, and stays unresolved (`resolvedValue = null`, displayed `"N/A"`)
otherwise; primitives and missing mode values stay unresolved. -/
def processVarMode (brandColorMap : List (String × BrandEntry)) (modeId : String)
    (vr : FVar) : ColorVariable :=
  let value := modeValueOf vr modeId
  let resolved : Option String × Option String :=
    match value with
    | some (VariableValue.color c) =>
      (some (toHexColor (.color c)), some (toHexColor (.color c)))
    | some (VariableValue.alias i) =>
      match mapGet brandColorMap i with
      | some referencedColor =>
        (some ("→ " ++ referencedColor.name), some referencedColor.value)
      | none => (none, none)
    | _ => (none, none)
  { name := vr.name,
    value := (resolved.1).getD "N/A",
    resolvedValue := resolved.2,
    description := vr.description }

/-- Uppercase hexadecimal digit test. -/
def isUpHexDigit (c : Char) : Bool :=
  ('0' ≤ c && c ≤ '9') || ('A' ≤ c && c ≤ 'F')

/-- Is the string a `#` followed by exactly six uppercase hexadecimal
digits? -/
def isUpperHex6 (s : String) : Bool :=
  match s.data with
  | c :: rest => c = '#' && rest.length = 6 && rest.all isUpHexDigit
  | [] => false

/-- A concrete executor for the C4 witness: counts executed actions and
throws on the action with id `"boom"`. -/
def witnessExec : AutomatorAction → Nat → Nat × Option String :=
  fun a n => (n + 1, if a.idStr = "boom" then some "exploded" else none)

/-- A leaf action with the given id. -/
def witnessAction (i : String) : AutomatorAction :=
  .mk i { name := "cloneFrame", metadata := [], title := "t", description := "d" } []

/-- A script whose second action throws. -/
def witnessScript : AutomatorScript :=
  { id := "s1", name := "n", description := "d", color := "green",
    actions := [witnessAction "a1", witnessAction "boom", witnessAction "a3"],
    createdAt := 0 }

/-- A document with one instance node and one variable collection, used by
the executor witnesses. -/
def nodeW : SceneNode :=
  { nodeType := "INSTANCE", name := "inst", x := 0, y := 0, width := 10, height := 10,
    parentId := none, canClone := true, hasXY := true, hasWH := true,
    canSetProps := true, hasBoundVars := true, props := [], boundVars := [] }

def docW : FigDoc :=
  { nodes := [(1, nodeW)], nextId := 2, currentPageId := 0,
    collections := [{ variableIds := [0], defaultModeId := "m0" }],
    vars := [(0, { name := "foo", valuesByMode := [] })] }

/-- A brand variable holding a direct color value. -/
def brandRed : FVar :=
  { id := "v1", name := "brand/red", variableCollectionId := "colB", description := "",
    valuesByMode := [("m0", VariableValue.color ⟨1, 0, 0⟩)] }

/-- A brand variable whose own value is an alias (one link of a chain). -/
def brandAliased : FVar :=
  { id := "v2", name := "brand/alias", variableCollectionId := "colB", description := "",
    valuesByMode := [("m0", VariableValue.alias "v1")] }

/-- The collections of the color witness. -/
def colsW : List FCollection :=
  [{ id := "colB", name := "Brand Colors", modes := [("m0", "Default")] }]

/-- A theme variable aliasing the direct-valued brand variable (one hop). -/
def themeVar : FVar :=
  { id := "v3", name := "fg/main", variableCollectionId := "colM", description := "",
    valuesByMode := [("m0", VariableValue.alias "v1")] }

/-- A theme variable aliasing the alias-valued brand variable (two hops). -/
def chainVar : FVar :=
  { id := "v4", name := "fg/chain", variableCollectionId := "colM", description := "",
    valuesByMode := [("m0", VariableValue.alias "v2")] }

/-!
## Theorems
-/

/-- A `try`/`catch` whose handler always succeeds always succeeds. -/
theorem tryCatchJs_isOk {α : Type} (body : Except JsErr α)
    (handler : JsErr → Except JsErr α) (h : ∀ e, (handler e).isOk = true) :
    (tryCatchJs body handler).isOk = true := by
  cases body with
  | ok a => rfl
  | error e => exact h e

/-- Processing one line never throws: the inner `try`/`catch` turns every
parse or render failure into a plain-text paragraph. -/
theorem processLineE_isOk (line : String) : (processLineE line).isOk = true := by
  unfold processLineE
  split
  · rfl
  · exact tryCatchJs_isOk _ _ (fun e => rfl)

/-- The line-by-line fallback never throws. -/
theorem renderLines_isOk (lines : List String) : (renderLines lines).isOk = true := by
  induction lines with
  | nil => rfl
  | cons l rest ih =>
    unfold renderLines
    cases hl : processLineE l with
    | error e =>
      have h := processLineE_isOk l
      rw [hl] at h
      exact Bool.noConfusion h
    | ok es =>
      cases hr : renderLines rest with
      | error e =>
        rw [hr] at ih
        exact Bool.noConfusion ih
      | ok r => rfl

/-- C1: for every input string, the Stream Chunk Parser
(`Message.renderContent`) never propagates an exception — it always returns
a (possibly empty) element list; moreover a line that fails to parse as JSON
is degraded to a plain-text paragraph when non-blank and ignored when
blank. -/
theorem renderContent_never_throws (content line : String) :
    (renderContentE content).isOk = true ∧
    (parseJson line = none → jsTrim line ≠ "" →
      processLineE line = .ok [.para (.str line)]) ∧
    (jsTrim line = "" → processLineE line = .ok []) := by
  refine ⟨?_, ?_, ?_⟩
  · unfold renderContentE
    exact tryCatchJs_isOk _ _ (fun e => renderLines_isOk _)
  · intro h1 h2
    unfold processLineE
    rw [if_neg h2]
    unfold tryCatchJs jsonParseE
    rw [h1]
  · intro h
    unfold processLineE
    rw [if_pos h]

/-- Witness for C1 at concrete inputs. -/
theorem renderContent_never_throws_witness :
    (renderContentE "hello \x7bworld").isOk = true ∧
    processLineE "not json at all" = .ok [.para (.str "not json at all")] ∧
    processLineE "   " = .ok [] :=
  ⟨(renderContent_never_throws "hello \x7bworld" "x").1,
   (renderContent_never_throws "" "not json at all").2.1 (by rfl) (by decide),
   (renderContent_never_throws "" "   ").2.2 (by rfl)⟩

/-- C5: the two-line content of a `text` chunk `"hi"` followed by a
`tool-call` chunk named `getColorInfo` with non-empty data renders exactly
two elements in order: the text paragraph, then the color table bound to the
parsed data. -/
theorem renderContent_text_then_colorTable :
    renderContentE
        ("\x7b\"type\":\"text\",\"content\":\"hi\"\x7d\n" ++
         "\x7b\"type\":\"tool-call\",\"name\":\"getColorInfo\",\"data\":\x7b\"a\":1\x7d\x7d") =
      .ok [.para (.str "hi"), .colorTable (.obj [("a", .num 1 0)])] := by rfl

/-- C10 counterexample: the content `"null"` parses as valid JSON and is not
a renderable chunk, yet it is not silently dropped — reading `.type` of the
parsed `null` throws, the `catch` treats the line like a parse failure, and
the line is rendered as a plain-text paragraph. -/
theorem parsed_null_line_rendered_as_text :
    parseJson "null" = some Json.null ∧
    renderChunkE Json.null = .error .typeError ∧
    renderContentE "null" = .ok [.para (.str "null")] ∧
    processLineE "null" = .ok [.para (.str "null")] :=
  ⟨rfl, rfl, rfl, rfl⟩

/-- C10 (amended): content, or a line of content, that parses as valid JSON
to a value on which `renderChunk` returns `null` without throwing (its type
field missing or unrecognized, empty text content, unknown or data-less tool
call) contributes no element — it is silently dropped, never rendered as
plain text. (A parsed `null`, whose property read throws, is excluded: it is
rendered as plain text.) -/
theorem nonrenderable_json_silently_dropped (line content : String) (v w : Json)
    (h1 : parseJson line = some v) (h2 : renderChunkE v = .ok none)
    (h3 : parseJson content = some w) (h4 : renderChunkE w = .ok none) :
    processLineE line = .ok [] ∧ renderContentE content = .ok [] := by
  constructor
  · simp only [processLineE, tryCatchJs, jsonParseE, h1, h2]
    split <;> rfl
  · simp only [renderContentE, tryCatchJs, jsonParseE, h3, h4]

/-- Witness for amended C10: a number line and an array content are valid
JSON but unrenderable, and produce no element. -/
theorem nonrenderable_json_silently_dropped_witness :
    processLineE "7" = .ok [] ∧ renderContentE "[1]" = .ok [] :=
  nonrenderable_json_silently_dropped "7" "[1]" (.num 7 0) (.arr [.num 1 0])
    rfl rfl rfl rfl

/-- C6: a chat request whose message list is empty or whose last message has
no content field is answered with HTTP 400 (`badRequest`), and the provider
is never invoked on it (`badRequest` carries no provider call; the guard
precedes `model.generateContentStream` in `POST`). -/
theorem missing_content_returns_badRequest (promptRewrite : String → String)
    (messages : List InMsg)
    (h : messages.getLast? = none ∨
      ∃ m, messages.getLast? = some m ∧ m.content = none) :
    postRoute promptRewrite messages = .badRequest := by
  unfold postRoute
  rcases h with h | ⟨m, hm, hc⟩
  · rw [h]
  · rw [hm]
    dsimp only
    rw [hc]

/-- Witness for C6: the empty request and a request whose last message lacks
content. -/
theorem missing_content_returns_badRequest_witness :
    postRoute (fun s => s) [] = .badRequest ∧
    postRoute (fun s => s)
      [{ role := "user", content := some "hi" }, { role := "user", content := none }] =
      .badRequest :=
  ⟨missing_content_returns_badRequest _ [] (Or.inl rfl),
   missing_content_returns_badRequest _ _ (Or.inr ⟨_, rfl, rfl⟩)⟩

/-- C3 counterexample: a `system`-role message is mapped to provider role
`model`, not coalesced into `user` as the claim states. -/
theorem system_role_maps_to_model :
    (buildChatHistory [{ role := "system", content := some "use markdown" },
        { role := "user", content := some "hi" }] "hi")[1]? =
      some { role := "model", text := some "use markdown" } ∧
    ("model" : String) ≠ "user" :=
  ⟨rfl, by decide⟩

/-- C3 (amended): the provider history maps `user` to `user` and every other
role — `assistant`, and also `system`/`tool` — to `model`; the first n-1
messages keep their order (oldest first) at positions 1..n-1, the fixed
system instruction is prepended as a `model` turn, and the (rewritten)
prompt is appended as the final `user` turn. -/
theorem buildChatHistory_structure (messages : List InMsg) (prompt : String) :
    (buildChatHistory messages prompt).length = messages.dropLast.length + 2 ∧
    (buildChatHistory messages prompt).head? =
      some { role := "model", text := some systemPrompt } ∧
    (buildChatHistory messages prompt).getLast? =
      some { role := "user", text := some prompt } ∧
    (∀ i : Nat, ∀ m : InMsg, messages[i]? = some m → i < messages.length - 1 →
      (buildChatHistory messages prompt)[i + 1]? =
        some { role := if m.role = "user" then "user" else "model", text := m.content }) := by
  refine ⟨?_, ?_, ?_, ?_⟩
  · simp [buildChatHistory]
  · simp [buildChatHistory]
  · unfold buildChatHistory
    dsimp only
    apply List.getLast?_concat
  · intro i m hm hi
    have hlen : i < messages.dropLast.length := by
      simp only [List.length_dropLast]
      omega
    have hd : messages.dropLast[i]? = some m := by
      rw [List.dropLast_eq_take, List.getElem?_take_of_lt (by omega)]
      exact hm
    simp only [buildChatHistory, List.cons_append, List.getElem?_cons_succ]
    rw [List.getElem?_append_left (by simpa using hlen), List.getElem?_map, hd]
    rfl

/-- Witness for amended C3: an `assistant` and a `tool` message both land at
their original position with role `model`; the instruction heads the history
and the prompt tails it. -/
theorem buildChatHistory_structure_witness :
    (buildChatHistory [{ role := "assistant", content := some "a" },
        { role := "tool", content := some "t" },
        { role := "user", content := some "go" }] "go")[1]? =
      some { role := "model", text := some "a" } ∧
    (buildChatHistory [{ role := "assistant", content := some "a" },
        { role := "tool", content := some "t" },
        { role := "user", content := some "go" }] "go")[2]? =
      some { role := "model", text := some "t" } ∧
    (buildChatHistory [{ role := "assistant", content := some "a" },
        { role := "tool", content := some "t" },
        { role := "user", content := some "go" }] "go").head? =
      some { role := "model", text := some systemPrompt } ∧
    (buildChatHistory [{ role := "assistant", content := some "a" },
        { role := "tool", content := some "t" },
        { role := "user", content := some "go" }] "go").getLast? =
      some { role := "user", text := some "go" } :=
  ⟨(buildChatHistory_structure _ "go").2.2.2 0
      { role := "assistant", content := some "a" } rfl (by decide),
   (buildChatHistory_structure _ "go").2.2.2 1
      { role := "tool", content := some "t" } rfl (by decide),
   (buildChatHistory_structure _ "go").2.1,
   (buildChatHistory_structure _ "go").2.2.1⟩

/-- C2 counterexample: the response `"{a}"` has an extractable brace block,
its parse fails, and the action branch errors the stream instead of emitting
the fallback `cloneFrame` script. -/
theorem parse_failure_errors_stream :
    extractJsonBlock "\x7ba\x7d" = some "\x7ba\x7d" ∧
    parseJson "\x7ba\x7d" = none ∧
    actionBranch "\x7ba\x7d" 0 = .errored ∧
    actionBranch "\x7ba\x7d" 0 ≠ .emit (fallbackJson 0) := by
  refine ⟨rfl, rfl, rfl, ?_⟩
  intro h
  exact ActionOutcome.noConfusion h

/-- C2 (amended): in the action-generation path, the default `cloneFrame`
script is emitted as the single chunk exactly when no `{...}` block can be
extracted from the buffered response; when a block is extracted but fails to
parse, the stream is errored (`controller.error`) and no fallback chunk is
emitted; when the block parses, the sanitized script is emitted. The
fallback script's command is `cloneFrame`. -/
theorem actionBranch_fallback_spec (s : String) (t : Nat) :
    (extractJsonBlock s = none → actionBranch s t = .emit (fallbackJson t)) ∧
    (∀ js, extractJsonBlock s = some js → parseJson js = none →
      actionBranch s t = .errored) ∧
    (∀ js v, extractJsonBlock s = some js → parseJson js = some v →
      actionBranch s t = .emit (cleanJson t v)) ∧
    firstCommandField (fallbackJson t) "name" = some (.str "cloneFrame") := by
  refine ⟨?_, ?_, ?_, rfl⟩
  · intro h
    unfold actionBranch
    rw [h]
  · intro js h1 h2
    unfold actionBranch
    rw [h1]
    dsimp only
    rw [h2]
  · intro js v h1 h2
    unfold actionBranch
    rw [h1]
    dsimp only
    rw [h2]

/-- Witness for amended C2 at concrete responses. -/
theorem actionBranch_fallback_spec_witness :
    actionBranch "I cannot help with that" 7 = .emit (fallbackJson 7) ∧
    actionBranch "\x7bnot json\x7d" 7 = .errored ∧
    actionBranch "\x7b\"name\":\"Make Variant\"\x7d" 7 =
      .emit (cleanJson 7 (.obj [("name", .str "Make Variant")])) :=
  ⟨(actionBranch_fallback_spec "I cannot help with that" 7).1 rfl,
   (actionBranch_fallback_spec "\x7bnot json\x7d" 7).2.1 "\x7bnot json\x7d" rfl rfl,
   (actionBranch_fallback_spec "\x7b\"name\":\"Make Variant\"\x7d" 7).2.2.1
     "\x7b\"name\":\"Make Variant\"\x7d" (.obj [("name", .str "Make Variant")]) rfl rfl⟩

/-- Running a prefix without error followed by a throwing action yields the
throw's state and error, independently of the remaining actions. -/
theorem runScriptActions_append_error {σ : Type}
    (f : AutomatorAction → σ → σ × Option String) (pre post : List AutomatorAction)
    (a : AutomatorAction) (st st1 st2 : σ) (e : String)
    (h1 : runScriptActions f pre st = (st1, none)) (h2 : f a st1 = (st2, some e)) :
    runScriptActions f (pre ++ a :: post) st = (st2, some e) := by
  induction pre generalizing st with
  | nil =>
    unfold runScriptActions at h1
    injection h1 with h1a h1b
    subst h1a
    rw [List.nil_append]
    unfold runScriptActions
    rw [h2]
  | cons b pre' ih =>
    rw [List.cons_append]
    unfold runScriptActions at h1 ⊢
    cases hb : f b st with
    | mk st' eb =>
      cases eb with
      | some e' =>
        rw [hb] at h1
        simp at h1
      | none =>
        rw [hb] at h1
        dsimp only at h1 ⊢
        exact ih st' h1

/-- C4: for any executor, document state and script — if every action
completes, the handler posts exactly one `AUTOMATOR_COMPLETE` carrying the
caller's id; if some action throws after an error-free prefix, the handler
performs none of the remaining actions, keeps the state reached at the throw
(no rollback), and posts exactly one `AUTOMATOR_ERROR` with the error and
the caller's id. -/
theorem executeAutomator_single_report {σ : Type}
    (f : AutomatorAction → σ → σ × Option String) (script : AutomatorScript)
    (st : σ) (msgId : String) :
    (∀ st', runScriptActions f script.actions st = (st', none) →
      handleExecuteAutomator f script st msgId =
        (st', [{ msgType := "AUTOMATOR_COMPLETE", error := none, id := msgId }])) ∧
    (∀ pre post a st1 st2 e, script.actions = pre ++ a :: post →
      runScriptActions f pre st = (st1, none) → f a st1 = (st2, some e) →
      handleExecuteAutomator f script st msgId =
        (st2, [{ msgType := "AUTOMATOR_ERROR", error := some e, id := msgId }])) := by
  constructor
  · intro st' h
    unfold handleExecuteAutomator
    rw [h]
  · intro pre post a st1 st2 e hs h1 h2
    unfold handleExecuteAutomator
    rw [hs, runScriptActions_append_error f pre post a st st1 st2 e h1 h2]

/-- Witness for C4: the throwing script posts one `AUTOMATOR_ERROR` with the
state as of the throw (two actions started, the third never run), and the
clean script posts one `AUTOMATOR_COMPLETE`. -/
theorem executeAutomator_single_report_witness :
    handleExecuteAutomator witnessExec witnessScript 0 "m1" =
      (2, [{ msgType := "AUTOMATOR_ERROR", error := some "exploded", id := "m1" }]) ∧
    handleExecuteAutomator witnessExec
        { witnessScript with actions := [witnessAction "a1"] } 0 "m2" =
      (1, [{ msgType := "AUTOMATOR_COMPLETE", error := none, id := "m2" }]) :=
  ⟨(executeAutomator_single_report witnessExec witnessScript 0 "m1").2
      [witnessAction "a1"] [witnessAction "a3"] (witnessAction "boom") 1 2 "exploded"
      rfl rfl rfl,
   (executeAutomator_single_report witnessExec
      { witnessScript with actions := [witnessAction "a1"] } 0 "m2").1 1 rfl⟩

/-- C8: an action whose command name is not one of the five recognized
identifiers falls through the dispatch — the command applies no document
mutation and raises nothing — and the executor still recurses into the
nested child actions in order. -/
theorem unrecognized_command_skipped_recurses (selection : List Nat) (idv : String)
    (command : AutomatorCommand) (subActions : List AutomatorAction) (d : FigDoc)
    (h : command.name ∉ ["cloneFrame", "createVariant", "convertToComponent",
      "setInstanceProperty", "setVariable"]) :
    execCmd command selection d = d ∧
    execAutomatorAction selection (.mk idv command subActions) d =
      execAutomatorList selection subActions d := by
  simp only [List.mem_cons, List.not_mem_nil, or_false, not_or] at h
  obtain ⟨h1, h2, h3, h4, h5⟩ := h
  have hc : execCmd command selection d = d := by
    unfold execCmd
    rw [if_neg h1, if_neg h2, if_neg h3, if_neg h4, if_neg h5]
  refine ⟨hc, ?_⟩
  rw [execAutomatorAction, hc]

/-- Witness for C8: a `frobnicate` command leaves the document untouched and
recursion proceeds into the (empty) child list. -/
theorem unrecognized_command_witness :
    execCmd { name := "frobnicate", metadata := [], title := "t", description := "d" }
      [1] docW = docW ∧
    execAutomatorAction [1]
      (.mk "a" { name := "frobnicate", metadata := [], title := "t", description := "d" } [])
      docW = execAutomatorList [1] [] docW :=
  unrecognized_command_skipped_recurses [1] "a"
    { name := "frobnicate", metadata := [], title := "t", description := "d" } [] docW
    (by decide)

/-- A fold whose step fixes the accumulator returns it unchanged. -/
theorem foldl_fixed {α β : Type} (f : β → α → β) (b : β) (l : List α)
    (h : ∀ x, f b x = b) : l.foldl f b = b := by
  induction l with
  | nil => rfl
  | cons a tl ih =>
    rw [List.foldl_cons, h a]
    exact ih

/-- The head of a list is a member. -/
theorem headOf_mem {α : Type} {l : List α} {a : α} (h : l.head? = some a) : a ∈ l := by
  cases l with
  | nil => exact absurd h (by simp)
  | cons b tl =>
    simp only [List.head?_cons, Option.some.injEq] at h
    subst h
    exact List.mem_cons_self _ _

/-- C7: executing a `setVariable` command whose `metadata.key` names no
variable of any local variable collection leaves the document — every node's
bound variables and every variable's values — unchanged, for every
selection, and (the embedded path being total) raises nothing. -/
theorem setVariable_unknown_key_noop (metadata : List (String × Json))
    (selection : List Nat) (d : FigDoc) (title descr : String)
    (h : ∀ coll ∈ d.collections, ∀ vid ∈ coll.variableIds, ∀ v,
      lookupVar d vid = some v → recGet metadata "key" ≠ some (Json.str v.name)) :
    execCmd ⟨"setVariable", metadata, title, descr⟩ selection d = d := by
  have hsv : cmdSetVariable metadata selection d = d := by
    unfold cmdSetVariable
    split
    · rfl
    · apply foldl_fixed
      intro nid
      dsimp only
      cases hn : lookupNode d nid with
      | none => rfl
      | some node =>
        dsimp only
        cases hb : node.hasBoundVars with
        | false => rfl
        | true =>
          rw [if_pos rfl]
          cases hh : d.collections.head? with
          | none => rfl
          | some coll =>
            dsimp only
            have hfind :
                (coll.variableIds.map (fun vid => (vid, lookupVar d vid))).find?
                  (fun p =>
                    match p.2, recGet metadata "key" with
                    | some v, some (Json.str k) => v.name = k
                    | _, _ => false) = none := by
              rw [List.find?_eq_none]
              intro p hp
              rw [List.mem_map] at hp
              obtain ⟨vid, hvid, rfl⟩ := hp
              cases hv : lookupVar d vid with
              | none => simp
              | some v =>
                have hne := h coll (headOf_mem hh) vid hvid v hv
                dsimp only
                cases hk : recGet metadata "key" with
                | none => simp
                | some kv =>
                  cases kv with
                  | str k =>
                    rw [hk] at hne
                    simp only [ne_eq, Option.some.injEq] at hne
                    have hvk : v.name ≠ k := fun hvk => hne (by rw [hvk])
                    simp [hvk]
                  | null => simp
                  | bool b => simp
                  | num m e => simp
                  | arr xs => simp
                  | obj fs => simp
            rw [hfind]
  exact hsv

/-- Witness for C7: a `setVariable` with key `"bar"` against a document
whose only variable is named `"foo"` changes nothing. -/
theorem setVariable_unknown_key_noop_witness :
    execCmd ⟨"setVariable", [("key", Json.str "bar")], "t", "d"⟩ [1] docW = docW := by
  apply setVariable_unknown_key_noop
  intro coll hcoll vid hvid v hv
  have hc : coll = { variableIds := [0], defaultModeId := "m0" } := by
    simpa [docW] using hcoll
  subst hc
  have hv0 : vid = 0 := by simpa using hvid
  subst hv0
  have : v = { name := "foo", valuesByMode := [] } := by
    have := hv
    simp [lookupVar, docW, List.find?] at this
    exact this.symm
  subst this
  simp [recGet, objGet]

/-- String concatenation concatenates the underlying characters. -/
theorem strData_append (s t : String) : (s ++ t).data = s.data ++ t.data := rfl

/-- `Math.round` of a channel value in `[0,1]` scaled by 255 lies in
`[0,255]`. -/
theorem jsRound_channel (q : ℚ) (h0 : 0 ≤ q) (h1 : q ≤ 1) :
    0 ≤ jsRound (q * 255) ∧ jsRound (q * 255) ≤ 255 := by
  unfold jsRound
  have hle : (0 : Int) ≤ Int.floor (q * 255 + 1 / 2) := by
    rw [Int.le_floor]
    push_cast
    linarith
  have hlt : Int.floor (q * 255 + 1 / 2) < 256 := by
    rw [Int.floor_lt]
    push_cast
    linarith
  exact ⟨hle, by omega⟩

/-- A value below 16 prints as a single hex digit. -/
theorem natToHexF_small (fuel m : Nat) (hf : 0 < fuel) (hm : m < 16) :
    natToHexF fuel m = [hexDigitChar m] := by
  cases fuel with
  | zero => omega
  | succ f =>
    unfold natToHexF
    rw [if_pos hm]

/-- A value up to 255 pads to exactly two hex digit characters. -/
theorem padHex_two (n : Nat) (h : n ≤ 255) :
    ∃ a b, a < 16 ∧ b < 16 ∧
      padHex (natToHex n) = String.mk [hexDigitChar a, hexDigitChar b] := by
  by_cases h16 : n < 16
  · refine ⟨0, n, by omega, h16, ?_⟩
    have h1 : natToHex n = String.mk [hexDigitChar n] := by
      unfold natToHex
      rw [natToHexF_small (n + 1) n (by omega) h16]
    rw [h1]
    rfl
  · refine ⟨n / 16, n % 16, by omega, by omega, ?_⟩
    have h1 : natToHex n = String.mk [hexDigitChar (n / 16), hexDigitChar (n % 16)] := by
      unfold natToHex natToHexF
      rw [if_neg h16]
      rw [natToHexF_small n (n / 16) (by omega) (by omega)]
      rfl
    rw [h1]
    rfl

/-- `rgbToHex` of channels in `[0,1]` is a `#` plus six uppercase hex
digits. -/
theorem rgbToHex_upperHex6 (c : RGBv) (h0r : 0 ≤ c.r) (h1r : c.r ≤ 1)
    (h0g : 0 ≤ c.g) (h1g : c.g ≤ 1) (h0b : 0 ≤ c.b) (h1b : c.b ≤ 1) :
    isUpperHex6 (rgbToHex c) = true := by
  obtain ⟨hr0, hr1⟩ := jsRound_channel c.r h0r h1r
  obtain ⟨hg0, hg1⟩ := jsRound_channel c.g h0g h1g
  obtain ⟨hb0, hb1⟩ := jsRound_channel c.b h0b h1b
  have e1 : intToHexStr (jsRound (c.r * 255)) = natToHex (jsRound (c.r * 255)).toNat := by
    unfold intToHexStr
    rw [if_neg (by omega)]
  have e2 : intToHexStr (jsRound (c.g * 255)) = natToHex (jsRound (c.g * 255)).toNat := by
    unfold intToHexStr
    rw [if_neg (by omega)]
  have e3 : intToHexStr (jsRound (c.b * 255)) = natToHex (jsRound (c.b * 255)).toNat := by
    unfold intToHexStr
    rw [if_neg (by omega)]
  obtain ⟨a1, b1, ha1, hb1', hp1⟩ := padHex_two (jsRound (c.r * 255)).toNat (by omega)
  obtain ⟨a2, b2, ha2, hb2', hp2⟩ := padHex_two (jsRound (c.g * 255)).toNat (by omega)
  obtain ⟨a3, b3, ha3, hb3', hp3⟩ := padHex_two (jsRound (c.b * 255)).toNat (by omega)
  have hup : ∀ a : Nat, a < 16 → isUpHexDigit (Char.toUpper (hexDigitChar a)) = true := by
    decide
  unfold rgbToHex
  dsimp only
  rw [e1, e2, e3, hp1, hp2, hp3]
  simp only [jsToUpper, isUpperHex6, strData_append, List.map_append, List.append_assoc]
  simp [hup a1 ha1, hup b1 hb1', hup a2 ha2, hup b2 hb2', hup a3 ha3, hup b3 hb3']

/-- `find?` skips a prefix in which nothing matches. -/
theorem find?_append_none {α : Type} (l1 l2 : List α) (p : α → Bool)
    (h : l1.find? p = none) : (l1 ++ l2).find? p = l2.find? p := by
  induction l1 with
  | nil => rfl
  | cons a tl ih =>
    by_cases hpa : p a = true
    · rw [List.find?_cons_of_pos _ hpa] at h
      exact absurd h (by simp)
    · rw [List.find?_cons_of_neg _ hpa] at h
      rw [List.cons_append, List.find?_cons_of_neg _ hpa]
      exact ih h

/-- `find?` keeps a hit found in the prefix. -/
theorem find?_append_some {α : Type} (l1 l2 : List α) (p : α → Bool) (x : α)
    (h : l1.find? p = some x) : (l1 ++ l2).find? p = some x := by
  induction l1 with
  | nil => exact absurd h (by simp)
  | cons a tl ih =>
    by_cases hpa : p a = true
    · rw [List.find?_cons_of_pos _ hpa] at h
      rw [List.cons_append, List.find?_cons_of_pos _ hpa]
      exact h
    · rw [List.find?_cons_of_neg _ hpa] at h
      rw [List.cons_append, List.find?_cons_of_neg _ hpa]
      exact ih h

/-- Replacing entries keyed `k` does not affect a lookup at a key `k' ≠ k`. -/
theorem mapGet_replace_ne (m : List (String × BrandEntry)) (k k' : String) (e : BrandEntry)
    (h : ¬ k' = k) :
    mapGet (m.map (fun p => if p.1 = k then (k, e) else p)) k' = mapGet m k' := by
  have hkk : ¬ k = k' := fun hh => h hh.symm
  induction m with
  | nil => rfl
  | cons hd tl ih =>
    rw [List.map_cons]
    by_cases hk : hd.1 = k
    · rw [if_pos hk]
      unfold mapGet at ih ⊢
      rw [List.find?_cons_of_neg _ (by simpa using hkk),
        List.find?_cons_of_neg _ (by simp only [decide_eq_true_eq]; rw [hk]; exact hkk)]
      exact ih
    · rw [if_neg hk]
      by_cases hk' : hd.1 = k'
      · unfold mapGet
        rw [List.find?_cons_of_pos _ (by simpa using hk'),
          List.find?_cons_of_pos _ (by simpa using hk')]
      · unfold mapGet at ih ⊢
        rw [List.find?_cons_of_neg _ (by simpa using hk'),
          List.find?_cons_of_neg _ (by simpa using hk')]
        exact ih

/-- Replacing entries keyed `k` makes a lookup at `k` find the new entry,
provided some entry with key `k` exists. -/
theorem mapGet_replace_self (m : List (String × BrandEntry)) (k : String) (e : BrandEntry)
    (hany : m.any (fun p => p.1 = k) = true) :
    mapGet (m.map (fun p => if p.1 = k then (k, e) else p)) k = some e := by
  induction m with
  | nil => simp at hany
  | cons hd tl ih =>
    rw [List.map_cons]
    by_cases hk : hd.1 = k
    · rw [if_pos hk]
      unfold mapGet
      rw [List.find?_cons_of_pos _ (by simp)]
      rfl
    · rw [if_neg hk]
      have htl : tl.any (fun p => p.1 = k) = true := by
        rcases List.any_eq_true.mp hany with ⟨x, hx, hpx⟩
        rcases List.mem_cons.mp hx with hx1 | hx2
        · exact absurd (by simpa [hx1] using hpx) hk
        · exact List.any_eq_true.mpr ⟨x, hx2, hpx⟩
      unfold mapGet at ih ⊢
      rw [List.find?_cons_of_neg _ (by simpa using hk)]
      exact ih htl

/-- `mapGet` after `mapSet` at the same key finds the new entry. -/
theorem mapGet_mapSet_self (m : List (String × BrandEntry)) (k : String) (e : BrandEntry) :
    mapGet (mapSet m k e) k = some e := by
  unfold mapSet
  by_cases hany : m.any (fun p => p.1 = k)
  · rw [if_pos hany]
    exact mapGet_replace_self m k e hany
  · rw [if_neg hany]
    have hnone : m.find? (fun p => p.1 = k) = none := by
      rw [List.find?_eq_none]
      intro x hx hpx
      exact hany (List.any_eq_true.mpr ⟨x, hx, hpx⟩)
    unfold mapGet
    rw [find?_append_none _ _ _ hnone, List.find?_cons_of_pos _ (by simp)]
    rfl

/-- `mapGet` after `mapSet` at a different key is unchanged. -/
theorem mapGet_mapSet_ne (m : List (String × BrandEntry)) (k k' : String) (e : BrandEntry)
    (h : ¬ k' = k) :
    mapGet (mapSet m k e) k' = mapGet m k' := by
  unfold mapSet
  by_cases hany : m.any (fun p => p.1 = k)
  · rw [if_pos hany]
    exact mapGet_replace_ne m k k' e h
  · rw [if_neg hany]
    unfold mapGet
    cases hfm : m.find? (fun p => p.1 = k') with
    | some x => rw [find?_append_some _ _ _ _ hfm]
    | none =>
      rw [find?_append_none _ _ _ hfm,
        List.find?_cons_of_neg _ (by simp only [decide_eq_true_eq]; exact fun hh => h hh.symm)]
      rfl

/-- If no variable in the list whose id is `uid` is color-headed, the brand
fold never enters `uid`. -/
theorem brandFold_absent (l : List FVar) (m0 : List (String × BrandEntry)) (uid : String)
    (h0 : mapGet m0 uid = none)
    (h : ∀ w ∈ l, w.id = uid → colorHeaded w = false) :
    mapGet (l.foldl brandStep m0) uid = none := by
  induction l generalizing m0 with
  | nil => exact h0
  | cons w tl ih =>
    rw [List.foldl_cons]
    have htl : ∀ w' ∈ tl, w'.id = uid → colorHeaded w' = false :=
      fun w' hw' hid => h w' (List.mem_cons_of_mem _ hw') hid
    have hstep : mapGet (brandStep m0 w) uid = none := by
      unfold brandStep
      cases hw : w.valuesByMode.head? with
      | none => exact h0
      | some p =>
        cases p with
        | mk mid vvalue =>
          cases vvalue with
          | color cc =>
            have hid : ¬ w.id = uid := by
              intro hh
              have hch := h w (List.mem_cons_self _ _) hh
              unfold colorHeaded at hch
              rw [hw] at hch
              exact Bool.noConfusion hch
            rw [mapGet_mapSet_ne _ _ _ _ (fun hh => hid hh.symm)]
            exact h0
          | «alias» i => exact h0
          | strv s2 => exact h0
          | numv q => exact h0
          | boolv b => exact h0
    exact ih (brandStep m0 w) hstep htl

/-- Once the brand-map entry for a color-headed variable `u` is present, a
fold over variables among which only `u` itself carries `u`'s id keeps it. -/
theorem brandFold_keeps (l : List FVar) (m0 : List (String × BrandEntry)) (u : FVar)
    (mid : String) (cc : RGBv)
    (hhead : u.valuesByMode.head? = some (mid, VariableValue.color cc))
    (huniq : ∀ w ∈ l, w.id = u.id → w = u)
    (h0 : mapGet m0 u.id = some { value := toHexColor (.color cc), name := u.name }) :
    mapGet (l.foldl brandStep m0) u.id =
      some { value := toHexColor (.color cc), name := u.name } := by
  induction l generalizing m0 with
  | nil => exact h0
  | cons w tl ih =>
    rw [List.foldl_cons]
    have htl : ∀ w' ∈ tl, w'.id = u.id → w' = u :=
      fun w' hw' hid => huniq w' (List.mem_cons_of_mem _ hw') hid
    have hstep : mapGet (brandStep m0 w) u.id =
        some { value := toHexColor (.color cc), name := u.name } := by
      unfold brandStep
      by_cases hid : w.id = u.id
      · have hw := huniq w (List.mem_cons_self _ _) hid
        subst hw
        rw [hhead, hid]
        exact mapGet_mapSet_self _ _ _
      · cases hw : w.valuesByMode.head? with
        | none => exact h0
        | some p =>
          cases p with
          | mk mid' vvalue =>
            cases vvalue with
            | color cc' =>
              rw [mapGet_mapSet_ne _ _ _ _ (fun hh => hid hh.symm)]
              exact h0
            | «alias» i => exact h0
            | strv s2 => exact h0
            | numv q => exact h0
            | boolv b => exact h0
    exact ih (brandStep m0 w) htl hstep

/-- A color-headed variable in the fold's input ends up in the map with its
hex value and name, when no other input variable shares its id. -/
theorem brandFold_present (l : List FVar) (m0 : List (String × BrandEntry)) (u : FVar)
    (mid : String) (cc : RGBv)
    (hmem : u ∈ l)
    (hhead : u.valuesByMode.head? = some (mid, VariableValue.color cc))
    (huniq : ∀ w ∈ l, w.id = u.id → w = u) :
    mapGet (l.foldl brandStep m0) u.id =
      some { value := toHexColor (.color cc), name := u.name } := by
  induction l generalizing m0 with
  | nil => exact absurd hmem (List.not_mem_nil _)
  | cons w tl ih =>
    rw [List.foldl_cons]
    rcases List.mem_cons.mp hmem with heq | hmem'
    · subst heq
      refine brandFold_keeps tl _ u mid cc hhead
        (fun w' hw' hid => huniq w' (List.mem_cons_of_mem _ hw') hid) ?_
      unfold brandStep
      rw [hhead]
      exact mapGet_mapSet_self _ _ _
    · have htl : ∀ w' ∈ tl, w'.id = u.id → w' = u :=
        fun w' hw' hid => huniq w' (List.mem_cons_of_mem _ hw') hid
      exact ih (brandStep m0 w) hmem' htl

/-- C9: in the Token Extractor's color projection — (1) a direct color value
is normalized to `#` plus six uppercase hex digits; (2) a variable whose
mode value is a direct color resolves to that hex; (3) an alias resolves
exactly one level: when the brand map carries the referenced id, the
resolved value is the referenced brand color's hex; (4) a brand variable
holding a direct color value is in the brand map under its id with its hex;
(5) a brand variable whose own value is an alias is absent from the brand
map, so (6) an alias whose referenced id is absent from the map — in
particular a chain of two or more aliases — stays unresolved
(`resolvedValue` null). -/
theorem color_hex_and_single_hop_alias (c : RGBv) (bm : List (String × BrandEntry))
    (modeId : String) (v : FVar)
    (h0r : 0 ≤ c.r) (h1r : c.r ≤ 1) (h0g : 0 ≤ c.g) (h1g : c.g ≤ 1)
    (h0b : 0 ≤ c.b) (h1b : c.b ≤ 1) :
    isUpperHex6 (rgbToHex c) = true ∧
    (modeValueOf v modeId = some (VariableValue.color c) →
      (processVarMode bm modeId v).resolvedValue = some (rgbToHex c)) ∧
    (∀ i en, modeValueOf v modeId = some (VariableValue.alias i) →
      mapGet bm i = some en →
      (processVarMode bm modeId v).resolvedValue = some en.value) ∧
    (∀ vars cols bc u mid c2,
      cols.find? (fun cl => cl.name = "Brand Colors") = some bc →
      u ∈ vars → u.variableCollectionId = bc.id →
      u.valuesByMode.head? = some (mid, VariableValue.color c2) →
      (∀ w ∈ vars, w.id = u.id → w = u) →
      mapGet (mkBrandColorMap vars cols) u.id =
        some { value := toHexColor (.color c2), name := u.name }) ∧
    (∀ vars cols u j mid,
      u.valuesByMode.head? = some (mid, VariableValue.alias j) →
      (∀ w ∈ vars, w.id = u.id → w = u) →
      mapGet (mkBrandColorMap vars cols) u.id = none) ∧
    (∀ i, modeValueOf v modeId = some (VariableValue.alias i) →
      mapGet bm i = none →
      (processVarMode bm modeId v).resolvedValue = none) := by
  refine ⟨rgbToHex_upperHex6 c h0r h1r h0g h1g h0b h1b, ?_, ?_, ?_, ?_, ?_⟩
  · intro hval
    unfold processVarMode
    dsimp only
    rw [hval]
    rfl
  · intro i en hval hget
    unfold processVarMode
    dsimp only
    rw [hval]
    dsimp only
    rw [hget]
  · intro vars cols bc u mid c2 hfindc hmem hcid hhead huniq
    unfold mkBrandColorMap
    rw [hfindc]
    refine brandFold_present _ _ u mid c2 ?_ hhead ?_
    · rw [List.mem_filter]
      exact ⟨hmem, by simp [hcid]⟩
    · intro w hw hid
      exact huniq w (List.mem_filter.mp hw).1 hid
  · intro vars cols u j mid hhead huniq
    unfold mkBrandColorMap
    cases hfindc : cols.find? (fun cl => cl.name = "Brand Colors") with
    | none => rfl
    | some bc =>
      refine brandFold_absent _ [] u.id rfl ?_
      intro w hw hid
      have hwu := huniq w (List.mem_filter.mp hw).1 hid
      subst hwu
      unfold colorHeaded
      rw [hhead]
  · intro i hval hget
    unfold processVarMode
    dsimp only
    rw [hval]
    dsimp only
    rw [hget]

/-- Witness for C9: full red is six uppercase hex digits; a direct value
resolves to its own hex; a one-hop alias resolves to the brand hex; the
alias-valued brand variable is not in the brand map, and the two-hop chain
through it stays unresolved. -/
theorem color_hex_and_single_hop_alias_witness :
    isUpperHex6 (rgbToHex ⟨1, 0, 0⟩) = true ∧
    (processVarMode (mkBrandColorMap [brandRed, brandAliased] colsW) "m0"
        brandRed).resolvedValue = some (rgbToHex ⟨1, 0, 0⟩) ∧
    mapGet (mkBrandColorMap [brandRed, brandAliased] colsW) "v1" =
      some { value := toHexColor (.color ⟨1, 0, 0⟩), name := "brand/red" } ∧
    (processVarMode (mkBrandColorMap [brandRed, brandAliased] colsW) "m0"
        themeVar).resolvedValue = some (toHexColor (.color ⟨1, 0, 0⟩)) ∧
    mapGet (mkBrandColorMap [brandRed, brandAliased] colsW) "v2" = none ∧
    (processVarMode (mkBrandColorMap [brandRed, brandAliased] colsW) "m0"
        chainVar).resolvedValue = none := by
  have hb : (0 : ℚ) ≤ 1 := by norm_num
  have h0 : (0 : ℚ) ≤ 0 := le_refl 0
  have h1 : (1 : ℚ) ≤ 1 := le_refl 1
  have h01 : (0 : ℚ) ≤ 1 := hb
  refine ⟨?_, ?_, ?_, ?_, ?_, ?_⟩
  · exact (color_hex_and_single_hop_alias ⟨1, 0, 0⟩ [] "m0" brandRed
      h01 h1 h0 h01 h0 h01).1
  · exact (color_hex_and_single_hop_alias ⟨1, 0, 0⟩
      (mkBrandColorMap [brandRed, brandAliased] colsW) "m0" brandRed
      h01 h1 h0 h01 h0 h01).2.1 rfl
  · exact (color_hex_and_single_hop_alias ⟨1, 0, 0⟩ [] "m0" brandRed
      h01 h1 h0 h01 h0 h01).2.2.2.1 [brandRed, brandAliased] colsW
      { id := "colB", name := "Brand Colors", modes := [("m0", "Default")] }
      brandRed "m0" ⟨1, 0, 0⟩ rfl (List.mem_cons_self _ _) rfl rfl (by decide)
  · exact (color_hex_and_single_hop_alias ⟨1, 0, 0⟩
      (mkBrandColorMap [brandRed, brandAliased] colsW) "m0" themeVar
      h01 h1 h0 h01 h0 h01).2.2.1 "v1"
      { value := toHexColor (.color ⟨1, 0, 0⟩), name := "brand/red" } rfl rfl
  · exact (color_hex_and_single_hop_alias ⟨1, 0, 0⟩ [] "m0" brandRed
      h01 h1 h0 h01 h0 h01).2.2.2.2.1 [brandRed, brandAliased] colsW
      brandAliased "v1" "m0" rfl (by decide)
  · exact (color_hex_and_single_hop_alias ⟨1, 0, 0⟩
      (mkBrandColorMap [brandRed, brandAliased] colsW) "m0" chainVar
      h01 h1 h0 h01 h0 h01).2.2.2.2.2 "v2" rfl rfl
